import Mathlib

set_option maxRecDepth 40000

/-!
Verification of the sample sales-data generator.

The program enumerates calendar months between a start and an end date
(`get_months`), crosses each month label with 15 product names, draws a
random unit price and quantity per row, computes the sales amount, and
writes a header plus one CSV line per row.

Dates are modelled as year/month/day triples of naturals; the Python
`datetime` type only holds valid calendar dates, which the predicate
`ValidDate` captures and theorems assume.  Randomness is modelled by
oracle functions supplying the value of each successive draw.  Prices
are modelled as rationals (the idealisation of the float arithmetic;
`round(x, 2)` becomes `round2`).
-/

structure Date where
  year : Nat
  month : Nat
  day : Nat
deriving DecidableEq, Repr

/-- Gregorian leap-year test, as Python's `calendar`/`datetime` define it. -/
def isLeap (y : Nat) : Bool :=
  (y % 4 == 0 && y % 100 != 0) || (y % 400 == 0)

/-- Number of days in month `m` of year `y` (months outside 1..12 never
arise from valid dates; the catch-all branch returns 31). -/
def daysInMonth (y m : Nat) : Nat :=
  if m = 2 then (if isLeap y then 29 else 28)
  else if m = 4 ∨ m = 6 ∨ m = 9 ∨ m = 11 then 30
  else 31

/-- The invariant Python's `datetime` constructor enforces on a date. -/
def ValidDate (d : Date) : Prop :=
  1 ≤ d.month ∧ d.month ≤ 12 ∧ 1 ≤ d.day ∧ d.day ≤ daysInMonth d.year d.month

instance (d : Date) : Decidable (ValidDate d) := by
  unfold ValidDate; infer_instance

/-- Successor day, rolling over month and year ends (the one-day step of
`timedelta` addition). -/
def nextDay (d : Date) : Date :=
  if d.day + 1 ≤ daysInMonth d.year d.month then ⟨d.year, d.month, d.day + 1⟩
  else if d.month + 1 ≤ 12 then ⟨d.year, d.month + 1, 1⟩
  else ⟨d.year + 1, 1, 1⟩

/-- Model of `d + timedelta(days=n)`: add `n` calendar days. -/
def addDays (d : Date) : Nat → Date
  | 0 => d
  | n + 1 => nextDay (addDays d n)

/-- Model of `d.replace(day=k)`. -/
def replaceDay (d : Date) (k : Nat) : Date := ⟨d.year, d.month, k⟩

/-- Python `datetime` comparison: lexicographic on (year, month, day). -/
def Date.lt (a b : Date) : Bool :=
  decide (a.year < b.year ∨ (a.year = b.year ∧
    (a.month < b.month ∨ (a.month = b.month ∧ a.day < b.day))))

/-- Zero-padded two-digit decimal rendering (`%m`, `%d`). -/
def pad2 (n : Nat) : String :=
  if n < 10 then "0" ++ toString n else toString n

/-- Four-digit year rendering (`%Y`). -/
def pad4 (n : Nat) : String :=
  if n < 10 then "000" ++ toString n
  else if n < 100 then "00" ++ toString n
  else if n < 1000 then "0" ++ toString n
  else toString n

/-- Model of `current.strftime("%m/%d/%Y")`. -/
def fmtDate (d : Date) : String :=
  pad2 d.month ++ "/" ++ pad2 d.day ++ "/" ++ pad4 d.year

/-- The loop body's month advance:
`current.replace(day=28) + timedelta(days=4)`, then `.replace(day=1)`. -/
def advanceMonth (d : Date) : Date :=
  replaceDay (addDays (replaceDay d 28) 4) 1

/-- Linearisation of (year, month) used as the loop measure. -/
def monthIdx (d : Date) : Nat := d.year * 12 + d.month

/-- The `while current < end` loop of `get_months`, with explicit fuel. -/
def getMonthsAux : Nat → Date → Date → List String
  | 0, _, _ => []
  | fuel + 1, current, e =>
    if Date.lt current e then
      fmtDate current :: getMonthsAux fuel (advanceMonth current) e
    else []

/-- Fuel that upper-bounds the number of loop iterations. -/
def monthsFuel (s e : Date) : Nat := monthIdx e + 1 - monthIdx s

/-- Source function `get_months(start, end)`: collect `strftime("%m/%d/%Y")`
labels while `current < end`, advancing a month each iteration. -/
def get_months (s e : Date) : List String := getMonthsAux (monthsFuel s e) s e

/-- Source list `products`: "Product 1" .. "Product 15". -/
def products : List String :=
  (List.range 15).map (fun i => "Product " ++ toString (i + 1))

def start_date : Date := ⟨2022, 1, 1⟩

def end_date : Date := ⟨2025, 1, 1⟩

/-- Source binding `months = get_months(start_date, end_date)`. -/
def months : List String := get_months start_date end_date

theorem daysInMonth_ge (y m : Nat) : 28 ≤ daysInMonth y m := by
  unfold daysInMonth
  split
  · split <;> omega
  · split <;> omega

/-- The normalisation step always lands on the first day of the immediately
following calendar month, for every month length including leap Februaries. -/
theorem advanceMonth_eq (d : Date) (hd : ValidDate d) :
    advanceMonth d =
      if d.month = 12 then (⟨d.year + 1, 1, 1⟩ : Date)
      else ⟨d.year, d.month + 1, 1⟩ := by
  obtain ⟨y, m, dd⟩ := d
  obtain ⟨h1, h2, h3, h4⟩ := hd
  simp only [Date.month] at h1 h2
  interval_cases m <;> cases hL : isLeap y <;>
    simp [advanceMonth, replaceDay, addDays, nextDay, daysInMonth, hL]

theorem validDate_advanceMonth (d : Date) (hd : ValidDate d) :
    ValidDate (advanceMonth d) := by
  have h2 := hd.2.1
  rcases eq_or_ne d.month 12 with hm | hm
  · rw [advanceMonth_eq d hd, if_pos hm]
    refine ⟨Nat.le_refl 1, ?_, Nat.le_refl 1, ?_⟩
    · show (1 : Nat) ≤ 12
      omega
    show 1 ≤ daysInMonth (d.year + 1) 1
    have := daysInMonth_ge (d.year + 1) 1
    omega
  · rw [advanceMonth_eq d hd, if_neg hm]
    refine ⟨?_, ?_, Nat.le_refl 1, ?_⟩
    · show 1 ≤ d.month + 1
      omega
    · show d.month + 1 ≤ 12
      omega
    · show 1 ≤ daysInMonth d.year (d.month + 1)
      have := daysInMonth_ge d.year (d.month + 1)
      omega

theorem monthIdx_advanceMonth (d : Date) (hd : ValidDate d) :
    monthIdx (advanceMonth d) = monthIdx d + 1 := by
  have h2 := hd.2.1
  rcases eq_or_ne d.month 12 with hm | hm
  · rw [advanceMonth_eq d hd, if_pos hm]
    show (d.year + 1) * 12 + 1 = d.year * 12 + d.month + 1
    omega
  · rw [advanceMonth_eq d hd, if_neg hm]
    show d.year * 12 + (d.month + 1) = d.year * 12 + d.month + 1
    omega

theorem day_advanceMonth (d : Date) (hd : ValidDate d) :
    (advanceMonth d).day = 1 := by
  rw [advanceMonth_eq d hd]
  split <;> rfl

/-- The sequence of running dates of the loop: the start date, then the
result of `n` successive month advances. -/
def advIter (s : Date) : Nat → Date
  | 0 => s
  | n + 1 => advanceMonth (advIter s n)

theorem advIter_zero (s : Date) : advIter s 0 = s := rfl

theorem advIter_succ (s : Date) (n : Nat) :
    advIter s (n + 1) = advanceMonth (advIter s n) := rfl

theorem advIter_valid (s : Date) (hs : ValidDate s) (n : Nat) :
    ValidDate (advIter s n) := by
  induction n with
  | zero => exact hs
  | succ n ih => exact validDate_advanceMonth _ ih

theorem monthIdx_advIter (s : Date) (hs : ValidDate s) (n : Nat) :
    monthIdx (advIter s n) = monthIdx s + n := by
  induction n with
  | zero => rfl
  | succ n ih =>
    have := monthIdx_advanceMonth (advIter s n) (advIter_valid s hs n)
    simp only [advIter]
    omega

theorem day_advIter (s : Date) (hs : ValidDate s) (n : Nat) (hn : 1 ≤ n) :
    (advIter s n).day = 1 := by
  obtain ⟨m, rfl⟩ : ∃ m, n = m + 1 := ⟨n - 1, by omega⟩
  exact day_advanceMonth _ (advIter_valid s hs m)

theorem advIter_shift (s : Date) (n : Nat) :
    advIter (advanceMonth s) n = advIter s (n + 1) := by
  induction n with
  | zero => rw [advIter_zero, advIter_succ, advIter_zero]
  | succ n ih => rw [advIter_succ, ih, advIter_succ s (n + 1)]

theorem monthIdx_le_of_lt (s e : Date) (hm : s.month ≤ 12)
    (h : Date.lt s e = true) : monthIdx s ≤ monthIdx e := by
  simp only [Date.lt, decide_eq_true_eq] at h
  unfold monthIdx
  omega

theorem lt_false_of_idx_lt (c e : Date) (hm : c.month ≤ 12)
    (h : monthIdx e < monthIdx c) : Date.lt c e = false := by
  cases hlt : Date.lt c e with
  | false => rfl
  | true => exact absurd (monthIdx_le_of_lt c e hm hlt) (by omega)

theorem range_map_succ_cons (g : Nat → String) (L : Nat) :
    (List.range (L + 1)).map g = g 0 :: (List.range L).map (fun n => g (n + 1)) := by
  rw [List.range_succ_eq_map, List.map_cons, List.map_map]
  rfl

theorem getMonthsAux_char (e : Date) :
    ∀ fuel s, ValidDate s → monthsFuel s e ≤ fuel →
      ∃ L, getMonthsAux fuel s e =
          (List.range L).map (fun n => fmtDate (advIter s n)) ∧
        (∀ n, n < L → Date.lt (advIter s n) e = true) ∧
        Date.lt (advIter s L) e = false := by
  intro fuel
  induction fuel with
  | zero =>
    intro s hs hf
    have hidx : monthIdx e < monthIdx s := by
      unfold monthsFuel at hf
      omega
    refine ⟨0, rfl, fun n hn => absurd hn (Nat.not_lt_zero n), ?_⟩
    rw [advIter_zero]
    exact lt_false_of_idx_lt s e hs.2.1 hidx
  | succ fuel ih =>
    intro s hs hf
    cases hlt : Date.lt s e with
    | false =>
      refine ⟨0, ?_, fun n hn => absurd hn (Nat.not_lt_zero n), ?_⟩
      · simp [getMonthsAux, hlt]
      · rw [advIter_zero]
        exact hlt
    | true =>
      have hle := monthIdx_le_of_lt s e hs.2.1 hlt
      have hf2 : monthsFuel (advanceMonth s) e ≤ fuel := by
        have := monthIdx_advanceMonth s hs
        unfold monthsFuel at hf ⊢
        omega
      obtain ⟨L, hEq, hAll, hEnd⟩ := ih (advanceMonth s) (validDate_advanceMonth s hs) hf2
      refine ⟨L + 1, ?_, ?_, ?_⟩
      · have hstep : getMonthsAux (fuel + 1) s e =
            fmtDate s :: getMonthsAux fuel (advanceMonth s) e := by
          simp [getMonthsAux, hlt]
        have htail : (List.range L).map (fun n => fmtDate (advIter (advanceMonth s) n)) =
            (List.range L).map (fun n => fmtDate (advIter s (n + 1))) :=
          List.map_congr_left (fun n _ => by rw [advIter_shift])
        rw [hstep, hEq, htail]
        exact (range_map_succ_cons (fun n => fmtDate (advIter s n)) L).symm
      · intro n hn
        cases n with
        | zero =>
          rw [advIter_zero]
          exact hlt
        | succ m =>
          rw [← advIter_shift]
          exact hAll m (by omega)
      · rw [advIter_shift] at hEnd
        exact hEnd

theorem get_months_empty_of_fuel_zero (s e : Date) (hf : monthsFuel s e = 0) :
    get_months s e = [] := by
  show getMonthsAux (monthsFuel s e) s e = []
  rw [hf]
  rfl

/-- C1 counterexample: with start date 2022-01-15 the first returned label is
"01/15/2022", the raw start date, which is not the first-of-month label
"01/01/2022" of January 2022 — so not every label is a first-of-month date. -/
theorem get_months_raw_start_counterexample :
    get_months ⟨2022, 1, 15⟩ ⟨2022, 3, 1⟩ = ["01/15/2022", "02/01/2022"] ∧
    "01/15/2022" ≠ fmtDate ⟨2022, 1, 1⟩ ∧
    (⟨2022, 1, 15⟩ : Date).day ≠ 1 ∧
    ValidDate ⟨2022, 1, 15⟩ := by decide

/-- C1 (amended): get_months returns the labels of a running date sequence
that starts at the start date itself (day preserved) and thereafter advances
to the first day of each successive calendar month, one label per month in
order, continuing exactly while the running date is strictly less than the
end date; every label after the first is a first-of-month date formatted
MM/DD/YYYY. -/
theorem get_months_characterization (s e : Date) (hs : ValidDate s) :
    ∃ L, get_months s e = (List.range L).map (fun n => fmtDate (advIter s n)) ∧
      (∀ n, n < L → Date.lt (advIter s n) e = true) ∧
      Date.lt (advIter s L) e = false ∧
      (∀ n, 1 ≤ n → (advIter s n).day = 1) ∧
      (∀ n, monthIdx (advIter s n) = monthIdx s + n) := by
  obtain ⟨L, hEq, hAll, hEnd⟩ :=
    getMonthsAux_char e (monthsFuel s e) s hs (Nat.le_refl _)
  exact ⟨L, hEq, hAll, hEnd, day_advIter s hs, monthIdx_advIter s hs⟩

theorem get_months_characterization_witness :
    ValidDate ⟨2022, 1, 15⟩ ∧
    ∃ L, get_months ⟨2022, 1, 15⟩ ⟨2022, 3, 1⟩ =
        (List.range L).map (fun n => fmtDate (advIter ⟨2022, 1, 15⟩ n)) ∧
      (∀ n, n < L → Date.lt (advIter ⟨2022, 1, 15⟩ n) ⟨2022, 3, 1⟩ = true) ∧
      Date.lt (advIter ⟨2022, 1, 15⟩ L) ⟨2022, 3, 1⟩ = false ∧
      (∀ n, 1 ≤ n → (advIter ⟨2022, 1, 15⟩ n).day = 1) ∧
      (∀ n, monthIdx (advIter ⟨2022, 1, 15⟩ n) = monthIdx ⟨2022, 1, 15⟩ + n) :=
  ⟨by decide, get_months_characterization ⟨2022, 1, 15⟩ ⟨2022, 3, 1⟩ (by decide)⟩

/-- C2 (confirmed): for every valid date, replacing the day with 28, adding
4 days and truncating to day 1 yields exactly the first day of the
immediately following calendar month — month index advances by exactly one
(no month skipped, none repeated), for every month length including
leap-year February. -/
theorem advanceMonth_first_of_next_month (d : Date) (hd : ValidDate d) :
    (advanceMonth d).day = 1 ∧
    monthIdx (advanceMonth d) = monthIdx d + 1 ∧
    advanceMonth d =
      (if d.month = 12 then (⟨d.year + 1, 1, 1⟩ : Date)
       else ⟨d.year, d.month + 1, 1⟩) :=
  ⟨day_advanceMonth d hd, monthIdx_advanceMonth d hd, advanceMonth_eq d hd⟩

theorem advanceMonth_first_of_next_month_witness :
    ValidDate ⟨2024, 2, 29⟩ ∧
    ((advanceMonth ⟨2024, 2, 29⟩).day = 1 ∧
     monthIdx (advanceMonth ⟨2024, 2, 29⟩) = monthIdx ⟨2024, 2, 29⟩ + 1 ∧
     advanceMonth ⟨2024, 2, 29⟩ =
       (if (⟨2024, 2, 29⟩ : Date).month = 12 then (⟨2024 + 1, 1, 1⟩ : Date)
        else ⟨2024, (⟨2024, 2, 29⟩ : Date).month + 1, 1⟩)) :=
  ⟨by decide, advanceMonth_first_of_next_month ⟨2024, 2, 29⟩ (by decide)⟩

/-- C3 (confirmed): the hardcoded range 2022-01-01 to exclusive 2025-01-01
yields exactly 36 labels, first "01/01/2022" and last "12/01/2024". -/
theorem months_36_labels :
    months.length = 36 ∧
    months.head? = some "01/01/2022" ∧
    months.getLast? = some "12/01/2024" := by decide

/-- C4 (confirmed): whenever start ≥ end (the lexicographic datetime order),
get_months returns the empty list; the function is total, with no error
conditions. -/
theorem get_months_empty_of_not_lt (s e : Date) (h : Date.lt s e = false) :
    get_months s e = [] := by
  cases hf : monthsFuel s e with
  | zero => exact get_months_empty_of_fuel_zero s e hf
  | succ n =>
    show getMonthsAux (monthsFuel s e) s e = []
    rw [hf]
    simp [getMonthsAux, h]

theorem get_months_empty_of_not_lt_witness :
    Date.lt ⟨2025, 1, 1⟩ ⟨2022, 1, 1⟩ = false ∧
    get_months ⟨2025, 1, 1⟩ ⟨2022, 1, 1⟩ = [] :=
  ⟨by decide, get_months_empty_of_not_lt ⟨2025, 1, 1⟩ ⟨2022, 1, 1⟩ (by decide)⟩

/-- C10 (confirmed): from any valid start date, each loop iteration moves the
running date to the first day of the strictly next calendar month, and for
any end date some iterate fails the `current < end` test, so the
`get_months` loop terminates. -/
theorem get_months_loop_terminates (s e : Date) (hs : ValidDate s) :
    (∀ n, monthIdx (advIter s (n + 1)) = monthIdx (advIter s n) + 1 ∧
      (advIter s (n + 1)).day = 1) ∧
    ∃ n, Date.lt (advIter s n) e = false := by
  constructor
  · intro n
    constructor
    · rw [monthIdx_advIter s hs (n + 1), monthIdx_advIter s hs n]
      omega
    · exact day_advIter s hs (n + 1) (by omega)
  · refine ⟨monthsFuel s e, ?_⟩
    apply lt_false_of_idx_lt _ _ ((advIter_valid s hs (monthsFuel s e)).2.1)
    rw [monthIdx_advIter s hs (monthsFuel s e)]
    unfold monthsFuel
    omega

theorem get_months_loop_terminates_witness :
    ValidDate ⟨2022, 1, 1⟩ ∧
    ((∀ n, monthIdx (advIter ⟨2022, 1, 1⟩ (n + 1)) =
        monthIdx (advIter ⟨2022, 1, 1⟩ n) + 1 ∧
      (advIter ⟨2022, 1, 1⟩ (n + 1)).day = 1) ∧
    ∃ n, Date.lt (advIter ⟨2022, 1, 1⟩ n) ⟨2025, 1, 1⟩ = false) :=
  ⟨by decide, get_months_loop_terminates ⟨2022, 1, 1⟩ ⟨2025, 1, 1⟩ (by decide)⟩

/-- Model of Python `round(x, 2)` on the idealised (rational) numbers:
round `x` to the nearest multiple of 1/100.  (Python breaks ties to even;
Mathlib `round` breaks them upward.  No property stated here depends on the
tie-breaking direction.) -/
def round2 (x : ℚ) : ℚ := (round (x * 100) : ℤ) / 100

theorem round_mono_q {x y : ℚ} (h : x ≤ y) : round x ≤ round y := by
  rw [round_eq, round_eq]
  exact Int.floor_mono (by linarith)

theorem round2_le_round2 {x y : ℚ} (h : x ≤ y) : round2 x ≤ round2 y := by
  unfold round2
  have h2 : round (x * 100) ≤ round (y * 100) := round_mono_q (by linarith)
  have h3 : ((round (x * 100) : ℤ) : ℚ) ≤ ((round (y * 100) : ℤ) : ℚ) := by
    exact_mod_cast h2
  linarith

theorem round2_intCast (n : ℤ) : round2 ((n : ℚ)) = n := by
  unfold round2
  have h : ((n : ℚ)) * 100 = ((n * 100 : ℤ) : ℚ) := by push_cast; ring
  rw [h, round_intCast]
  push_cast
  field_simp

theorem round2_five : round2 (5 : ℚ) = 5 := by
  simpa using round2_intCast 5

theorem round2_fifty : round2 (50 : ℚ) = 50 := by
  simpa using round2_intCast 50

theorem round2_range (x : ℚ) (h1 : 5 ≤ x) (h2 : x ≤ 50) :
    5 ≤ round2 x ∧ round2 x ≤ 50 := by
  constructor
  · have h := round2_le_round2 h1
    rw [round2_five] at h
    exact h
  · have h := round2_le_round2 h2
    rw [round2_fifty] at h
    exact h

/-- One synthesized sales record, as assembled in the inner loop. -/
structure Row where
  month : String
  product : String
  unit_price : ℚ
  quantity : Nat
  sales : ℚ
deriving DecidableEq, Repr

/-- One inner-loop iteration: draw `unit_price = round(uniform(5, 50), 2)`
and `quantity = randint(50, 500)` from the random streams at draw position
`k`, then `sales = round(unit_price * quantity, 2)`. -/
def mkRow (po : Nat → ℚ) (qo : Nat → Nat) (m p : String) (k : Nat) : Row :=
  let u := round2 (po k)
  let q := qo k
  ⟨m, p, u, q, round2 (u * (q : ℚ))⟩

/-- The (month, product) pairs in loop order: months outer, products inner. -/
def monthProductPairs (ms ps : List String) : List (String × String) :=
  ms.flatMap (fun m => ps.map (fun p => (m, p)))

/-- Source list `data`, parameterised by the unit-price and quantity random
streams; row `k` uses draw position `k`. -/
def data (po : Nat → ℚ) (qo : Nat → Nat) : List Row :=
  (monthProductPairs months products).mapIdx (fun k mp => mkRow po qo mp.1 mp.2 k)

theorem monthProductPairs_length (ms ps : List String) :
    (monthProductPairs ms ps).length = ms.length * ps.length := by
  induction ms with
  | nil => simp [monthProductPairs]
  | cons a ms ih =>
    show (ps.map (fun p => (a, p)) ++ monthProductPairs ms ps).length = _
    rw [List.length_append, List.length_map, ih, List.length_cons, Nat.succ_mul]
    omega

theorem monthProductPairs_getElem (ms ps : List String) :
    ∀ i j m p, ms[i]? = some m → ps[j]? = some p →
      (monthProductPairs ms ps)[i * ps.length + j]? = some (m, p) := by
  induction ms with
  | nil =>
    intro i j m p hm _
    simp at hm
  | cons a ms ih =>
    intro i j m p hm hp
    have hj : j < ps.length := by
      rcases List.getElem?_eq_some_iff.mp hp with ⟨h, _⟩
      exact h
    show (ps.map (fun p => (a, p)) ++ monthProductPairs ms ps)[i * ps.length + j]? = _
    cases i with
    | zero =>
      obtain rfl : a = m := by
        rw [List.getElem?_cons_zero] at hm
        exact Option.some.inj hm
      rw [Nat.zero_mul, Nat.zero_add,
        List.getElem?_append_left (by rw [List.length_map]; exact hj),
        List.getElem?_map, hp]
      rfl
    | succ i =>
      rw [List.getElem?_cons_succ] at hm
      have hidx : (i + 1) * ps.length + j =
          (ps.map (fun p => (a, p))).length + (i * ps.length + j) := by
        rw [List.length_map, Nat.succ_mul]
        omega
      rw [hidx, List.getElem?_append_right (Nat.le_add_right _ _),
        Nat.add_sub_cancel_left]
      exact ih i j m p hm hp

theorem data_getElem_mkRow (po : Nat → ℚ) (qo : Nat → Nat) (k : Nat)
    (m p : String) (h : (monthProductPairs months products)[k]? = some (m, p)) :
    mkRow po qo m p k ∈ data po qo := by
  apply List.getElem?_mem (n := k)
  show ((monthProductPairs months products).mapIdx
    (fun k mp => mkRow po qo mp.1 mp.2 k))[k]? = some (mkRow po qo m p k)
  rw [List.getElem?_mapIdx, h]
  rfl

/-- Sample unit-price stream used in witnesses: every draw is 10. -/
def po0 : Nat → ℚ := fun _ => 10

/-- Sample quantity stream used in witnesses: every draw is 100. -/
def qo0 : Nat → Nat := fun _ => 100

/-- C5 (confirmed): every generated row stores
`sales_amount = round(unit_price * quantity, 2)` computed from the
unit price and quantity stored in that same row, whatever the random
streams supplied. -/
theorem data_sales_amount_invariant (po : Nat → ℚ) (qo : Nat → Nat)
    (r : Row) (hr : r ∈ data po qo) :
    r.sales = round2 (r.unit_price * (r.quantity : ℚ)) := by
  unfold data at hr
  obtain ⟨i, hi, heq⟩ := List.mem_mapIdx.mp hr
  subst heq
  rfl

theorem data_sales_amount_invariant_witness :
    mkRow po0 qo0 "01/01/2022" "Product 1" 0 ∈ data po0 qo0 ∧
    (mkRow po0 qo0 "01/01/2022" "Product 1" 0).sales =
      round2 ((mkRow po0 qo0 "01/01/2022" "Product 1" 0).unit_price *
        ((mkRow po0 qo0 "01/01/2022" "Product 1" 0).quantity : ℚ)) := by
  have hmem : mkRow po0 qo0 "01/01/2022" "Product 1" 0 ∈ data po0 qo0 :=
    data_getElem_mkRow po0 qo0 0 "01/01/2022" "Product 1" (by decide)
  exact ⟨hmem, data_sales_amount_invariant po0 qo0 _ hmem⟩

/-- C6 (confirmed): whenever the unit-price draws lie in [5, 50] (the range
of `uniform(5, 50)`) and the quantity draws lie in [50, 500] (the range of
`randint(50, 500)`), every generated row has `unit_price` in the closed
interval [5.00, 50.00] — rounding to 2 decimals stays inside the interval —
and `quantity` in the closed integer interval [50, 500]. -/
theorem data_price_quantity_in_range (po : Nat → ℚ) (qo : Nat → Nat)
    (hp : ∀ k, 5 ≤ po k ∧ po k ≤ 50) (hq : ∀ k, 50 ≤ qo k ∧ qo k ≤ 500)
    (r : Row) (hr : r ∈ data po qo) :
    (5 ≤ r.unit_price ∧ r.unit_price ≤ 50) ∧
    (50 ≤ r.quantity ∧ r.quantity ≤ 500) := by
  unfold data at hr
  obtain ⟨i, hi, heq⟩ := List.mem_mapIdx.mp hr
  subst heq
  exact ⟨round2_range (po i) (hp i).1 (hp i).2, (hq i).1, (hq i).2⟩

theorem data_price_quantity_in_range_witness :
    (∀ k, 5 ≤ po0 k ∧ po0 k ≤ 50) ∧
    (∀ k, 50 ≤ qo0 k ∧ qo0 k ≤ 500) ∧
    mkRow po0 qo0 "01/01/2022" "Product 2" 1 ∈ data po0 qo0 ∧
    ((5 ≤ (mkRow po0 qo0 "01/01/2022" "Product 2" 1).unit_price ∧
      (mkRow po0 qo0 "01/01/2022" "Product 2" 1).unit_price ≤ 50) ∧
     (50 ≤ (mkRow po0 qo0 "01/01/2022" "Product 2" 1).quantity ∧
      (mkRow po0 qo0 "01/01/2022" "Product 2" 1).quantity ≤ 500)) := by
  have hp : ∀ k, 5 ≤ po0 k ∧ po0 k ≤ 50 := fun _ => by norm_num [po0]
  have hq : ∀ k, 50 ≤ qo0 k ∧ qo0 k ≤ 500 := fun _ => by norm_num [qo0]
  have hmem : mkRow po0 qo0 "01/01/2022" "Product 2" 1 ∈ data po0 qo0 :=
    data_getElem_mkRow po0 qo0 1 "01/01/2022" "Product 2" (by decide)
  exact ⟨hp, hq, hmem, data_price_quantity_in_range po0 qo0 hp hq _ hmem⟩

/-- C7 (confirmed): the dataset has one row per (month, product) pair —
`months.length * 15` rows in total — ordered with months as the outer loop
and the 15 products "Product 1" .. "Product 15" (in index order) as the
inner loop: the row at position `i * 15 + j` carries month label `i` and
product name `j`. -/
theorem data_one_row_per_month_product (po : Nat → ℚ) (qo : Nat → Nat)
    (i j : Nat) (m p : String)
    (hm : months[i]? = some m) (hp : products[j]? = some p) :
    products = ["Product 1", "Product 2", "Product 3", "Product 4",
      "Product 5", "Product 6", "Product 7", "Product 8", "Product 9",
      "Product 10", "Product 11", "Product 12", "Product 13", "Product 14",
      "Product 15"] ∧
    (data po qo).length = months.length * 15 ∧
    ((data po qo)[i * 15 + j]?).map (fun r => (r.month, r.product)) =
      some (m, p) := by
  have hlen15 : products.length = 15 := by decide
  refine ⟨by decide, ?_, ?_⟩
  · show ((monthProductPairs months products).mapIdx
      (fun k mp => mkRow po qo mp.1 mp.2 k)).length = months.length * 15
    rw [List.length_mapIdx, monthProductPairs_length, hlen15]
  · have hpair := monthProductPairs_getElem months products i j m p hm hp
    rw [hlen15] at hpair
    show (((monthProductPairs months products).mapIdx
      (fun k mp => mkRow po qo mp.1 mp.2 k))[i * 15 + j]?).map
        (fun r => (r.month, r.product)) = some (m, p)
    rw [List.getElem?_mapIdx, hpair]
    rfl

theorem data_one_row_per_month_product_witness :
    months[1]? = some "02/01/2022" ∧
    products[2]? = some "Product 3" ∧
    (products = ["Product 1", "Product 2", "Product 3", "Product 4",
      "Product 5", "Product 6", "Product 7", "Product 8", "Product 9",
      "Product 10", "Product 11", "Product 12", "Product 13", "Product 14",
      "Product 15"] ∧
    (data po0 qo0).length = months.length * 15 ∧
    ((data po0 qo0)[1 * 15 + 2]?).map (fun r => (r.month, r.product)) =
      some ("02/01/2022", "Product 3")) :=
  ⟨by decide, by decide,
    data_one_row_per_month_product po0 qo0 1 2 "02/01/2022" "Product 3"
      (by decide) (by decide)⟩

/-- Header fields written by `writer.writerow([...])`. -/
def headerFields : List String :=
  ["month/year", "product name", "unit price", "quantity", "sales amount"]

/-- Model of one `csv.writer` output line: fields joined by the comma
delimiter.  None of the generated fields contains a delimiter, quote or
newline, so csv quoting never applies. -/
def renderRow (fields : List String) : String := String.intercalate "," fields

/-- The lines of the output file: the header line, then one line per data
row, numeric fields rendered by a decimal rendering function `sh`. -/
def csvLines (sh : ℚ → String) (rows : List Row) : List String :=
  renderRow headerFields ::
    rows.map (fun r =>
      renderRow [r.month, r.product, sh r.unit_price, toString r.quantity,
        sh r.sales])

/-- Sample numeric-field rendering used in the counterexample. -/
def sh0 : ℚ → String := fun _ => "0"

/-- C8 counterexample: the first line the program writes is
"month/year,product name,unit price,quantity,sales amount" — `csv.writer`
joins fields with a bare comma — which differs from the spec's literal
header string "month/year, product name, unit price, quantity, sales
amount" (spaces after the commas). -/
theorem csv_header_literal_counterexample :
    (csvLines sh0 (data po0 qo0)).head? =
      some "month/year,product name,unit price,quantity,sales amount" ∧
    "month/year,product name,unit price,quantity,sales amount" ≠
      "month/year, product name, unit price, quantity, sales amount" := by
  constructor
  · rfl
  · decide

/-- C8 (amended): the output file's first line is the header
"month/year,product name,unit price,quantity,sales amount" (fields joined
by a bare comma, no spaces), and the total line count is 1 (header) plus
the number of data rows — for every numeric rendering and random streams. -/
theorem csv_first_line_and_line_count (sh : ℚ → String)
    (po : Nat → ℚ) (qo : Nat → Nat) :
    (csvLines sh (data po qo)).head? =
      some "month/year,product name,unit price,quantity,sales amount" ∧
    (csvLines sh (data po qo)).length = 1 + (data po qo).length := by
  constructor
  · rfl
  · show (csvLines sh (data po qo)).length = 1 + (data po qo).length
    unfold csvLines
    rw [List.length_cons, List.length_map]
    omega

/-- C9 (confirmed): for the fixed date range and product list, any two
choices of random streams give datasets with the same row count and
identical month-label and product-name columns in the same order — these
columns do not depend on the random source. -/
theorem data_labels_independent_of_random_streams
    (po po2 : Nat → ℚ) (qo qo2 : Nat → Nat) :
    (data po qo).length = (data po2 qo2).length ∧
    (data po qo).map (fun r => r.month) =
      (data po2 qo2).map (fun r => r.month) ∧
    (data po qo).map (fun r => r.product) =
      (data po2 qo2).map (fun r => r.product) := by
  unfold data
  refine ⟨?_, ?_, ?_⟩
  · rw [List.length_mapIdx, List.length_mapIdx]
  · apply List.ext_getElem?
    intro n
    rw [List.getElem?_map, List.getElem?_map, List.getElem?_mapIdx,
      List.getElem?_mapIdx]
    cases hx : (monthProductPairs months products)[n]? with
    | none => rfl
    | some mp => rfl
  · apply List.ext_getElem?
    intro n
    rw [List.getElem?_map, List.getElem?_map, List.getElem?_mapIdx,
      List.getElem?_mapIdx]
    cases hx : (monthProductPairs months products)[n]? with
    | none => rfl
    | some mp => rfl
